import Mathlib

/-!
Verification of the trial-synchronization and condition-resolution engine of
the map-ephys pipeline.  The definitions below are a shallow embedding of
`pipeline/experiment.py` (`PhotostimBrainRegion.make`, `Breathing.make`) and
`pipeline/plot/unit_psth.py` (alignment-event fallback, latent-variable
quantile grouping, trial-offset condition resolution).  Machine floats of the
source are modelled by `ℚ` (the decisions taken on them are sign tests and
exact comparisons only); NaN entries of a pandas float column are modelled by
`Option ℚ` with `none` for NaN; table rows are lists; a fallible Python call
is an `Except`.
-/

/- ===== Laterality resolver: PhotostimBrainRegion.make, experiment.py lines 128-143 ===== -/

/-- Embedding of `PhotostimBrainRegion.make`.  Inputs are the `brain_area` and
`ml_location` columns fetched from `Photostim.PhotostimLocation` for one
protocol.  `len(set(brain_areas)) > 1` is modelled with `List.toFinset`;
`brain_areas[0]` (evaluated on the rows of a part table, nonempty in practice)
is modelled by `List.headD`.  The returned pair is the
`(stim_brain_area, stim_laterality)` content of the inserted row; `.error`
models a raised `ValueError` (or the failed `assert` on a sign mix the code
does not anticipate), after which nothing is inserted. -/
def photostimBrainRegionMake (brain_areas : List String) (ml_locations : List ℚ) :
    Except String (String × String) :=
  if 1 < brain_areas.toFinset.card then
    .error ("Multiple different brain areas for one photostim protocol is unsupported")
  else if ml_locations.any (fun x => decide (0 < x)) && ml_locations.any (fun x => decide (x < 0)) then
    .ok (brain_areas.headD "", "both")
  else if ml_locations.all (fun x => decide (0 < x)) then
    .ok (brain_areas.headD "", "right")
  else if ml_locations.all (fun x => decide (x < 0)) then
    .ok (brain_areas.headD "", "left")
  else if ml_locations.all (fun x => decide (x = 0)) then
    .error ("Ambiguous hemisphere: ML locations are all 0...")
  else
    .error ("AssertionError")

/-- C2: Laterality resolution: for every protocol whose rows pass the single
brain-area check and with a nonempty set of locations, the resolver returns
laterality "both" when some medial coordinate is positive and some negative,
"right" when all are positive, "left" when all are negative, and fails with
the ambiguous-hemisphere error when all are exactly zero. -/
theorem photostimLateralityRule (areas : List String) (ml : List ℚ)
    (hml : ml ≠ []) (hA : areas.toFinset.card ≤ 1) :
    ((∃ x ∈ ml, 0 < x) → (∃ y ∈ ml, y < 0) →
        photostimBrainRegionMake areas ml = .ok (areas.headD "", "both"))
  ∧ ((∀ x ∈ ml, 0 < x) →
        photostimBrainRegionMake areas ml = .ok (areas.headD "", "right"))
  ∧ ((∀ x ∈ ml, x < 0) →
        photostimBrainRegionMake areas ml = .ok (areas.headD "", "left"))
  ∧ ((∀ x ∈ ml, x = 0) →
        photostimBrainRegionMake areas ml
          = .error ("Ambiguous hemisphere: ML locations are all 0...")) := by
  have hcard : ¬ (1 < areas.toFinset.card) := not_lt.mpr hA
  obtain ⟨z, hz⟩ := List.exists_mem_of_ne_nil ml hml
  refine ⟨?_, ?_, ?_, ?_⟩
  · rintro ⟨x, hx, hx0⟩ ⟨y, hy, hy0⟩
    have hcond : (ml.any (fun x => decide (0 < x)) && ml.any (fun x => decide (x < 0))) = true := by
      simp only [Bool.and_eq_true, List.any_eq_true, decide_eq_true_eq]
      exact ⟨⟨x, hx, hx0⟩, ⟨y, hy, hy0⟩⟩
    simp only [photostimBrainRegionMake, if_neg hcard, if_pos hcond]
  · intro hall
    have hneg : ¬ ((ml.any (fun x => decide (0 < x)) && ml.any (fun x => decide (x < 0))) = true) := by
      simp only [Bool.and_eq_true, List.any_eq_true, decide_eq_true_eq]
      rintro ⟨-, y, hy, hy0⟩
      exact absurd (hall y hy) (not_lt.mpr hy0.le)
    have hpos : (ml.all (fun x => decide (0 < x))) = true := by
      simp only [List.all_eq_true, decide_eq_true_eq]; exact hall
    simp only [photostimBrainRegionMake, if_neg hcard, if_neg hneg, if_pos hpos]
  · intro hall
    have hneg : ¬ ((ml.any (fun x => decide (0 < x)) && ml.any (fun x => decide (x < 0))) = true) := by
      simp only [Bool.and_eq_true, List.any_eq_true, decide_eq_true_eq]
      rintro ⟨⟨y, hy, hy0⟩, -⟩
      exact absurd (hall y hy) (not_lt.mpr hy0.le)
    have hnpos : ¬ ((ml.all (fun x => decide (0 < x))) = true) := by
      simp only [List.all_eq_true, decide_eq_true_eq]
      intro h
      exact absurd (h z hz) (not_lt.mpr (hall z hz).le)
    have hltz : (ml.all (fun x => decide (x < 0))) = true := by
      simp only [List.all_eq_true, decide_eq_true_eq]; exact hall
    simp only [photostimBrainRegionMake, if_neg hcard, if_neg hneg, if_neg hnpos, if_pos hltz]
  · intro hall
    have hneg : ¬ ((ml.any (fun x => decide (0 < x)) && ml.any (fun x => decide (x < 0))) = true) := by
      simp only [Bool.and_eq_true, List.any_eq_true, decide_eq_true_eq]
      rintro ⟨⟨y, hy, hy0⟩, -⟩
      exact absurd (hall y hy) (ne_of_gt hy0)
    have hnpos : ¬ ((ml.all (fun x => decide (0 < x))) = true) := by
      simp only [List.all_eq_true, decide_eq_true_eq]
      intro h
      exact absurd (hall z hz) (ne_of_gt (h z hz))
    have hnltz : ¬ ((ml.all (fun x => decide (x < 0))) = true) := by
      simp only [List.all_eq_true, decide_eq_true_eq]
      intro h
      exact absurd (hall z hz) (ne_of_lt (h z hz))
    have hzero : (ml.all (fun x => decide (x = 0))) = true := by
      simp only [List.all_eq_true, decide_eq_true_eq]; exact hall
    simp only [photostimBrainRegionMake, if_neg hcard, if_neg hneg, if_neg hnpos, if_neg hnltz,
      if_pos hzero]

/-- Witness for C2: the medial-coordinate examples of the spec, evaluated
through the laterality theorem at concrete inputs. -/
theorem photostimLateralityRule_witness :
    photostimBrainRegionMake ["ALM"] [5, -3] = .ok ("ALM", "both")
  ∧ photostimBrainRegionMake ["ALM"] [5, 7] = .ok ("ALM", "right")
  ∧ photostimBrainRegionMake ["ALM"] [-1] = .ok ("ALM", "left")
  ∧ photostimBrainRegionMake ["ALM"] [0, 0]
      = .error ("Ambiguous hemisphere: ML locations are all 0...") := by
  have hA : (["ALM"] : List String).toFinset.card ≤ 1 := by decide
  refine ⟨?_, ?_, ?_, ?_⟩
  · exact ((photostimLateralityRule ["ALM"] [5, -3] (by decide) hA).1
      (by decide) (by decide)).trans rfl
  · exact ((photostimLateralityRule ["ALM"] [5, 7] (by decide) hA).2.1 (by decide)).trans rfl
  · exact ((photostimLateralityRule ["ALM"] [-1] (by decide) hA).2.2.1 (by decide)).trans rfl
  · exact (photostimLateralityRule ["ALM"] [0, 0] (by decide) hA).2.2.2 (by decide)

/-- C8: Protocol brain-area consistency: rows with two distinct brain areas
fail with the configuration error (nothing inserted); rows that all report
the same area and resolve successfully return that common area. -/
theorem photostimAreaConsistency (areas : List String) (ml : List ℚ) :
    ((∃ a ∈ areas, ∃ b ∈ areas, a ≠ b) →
        photostimBrainRegionMake areas ml
          = .error ("Multiple different brain areas for one photostim protocol is unsupported"))
  ∧ (∀ a : String, areas ≠ [] → (∀ x ∈ areas, x = a) →
        ∀ res, photostimBrainRegionMake areas ml = .ok res → res.1 = a) := by
  constructor
  · rintro ⟨a, ha, b, hb, hab⟩
    have hcard : 1 < areas.toFinset.card :=
      Finset.one_lt_card.mpr
        ⟨a, List.mem_toFinset.mpr ha, b, List.mem_toFinset.mpr hb, hab⟩
    simp only [photostimBrainRegionMake, if_pos hcard]
  · intro a hne hall res hres
    have hhead : areas.headD "" = a := by
      cases areas with
      | nil => exact absurd rfl hne
      | cons hd tl => exact hall hd (List.mem_cons_self hd tl)
    simp only [photostimBrainRegionMake] at hres
    split at hres
    · exact absurd hres (by simp)
    · split at hres
      · rw [← hhead]; cases hres; rfl
      · split at hres
        · rw [← hhead]; cases hres; rfl
        · split at hres
          · rw [← hhead]; cases hres; rfl
          · split at hres
            · exact absurd hres (by simp)
            · exact absurd hres (by simp)

/-- Witness for C8: a two-area protocol is rejected with the configuration
error, and a one-area protocol resolves to that area, both via the
consistency theorem at concrete inputs. -/
theorem photostimAreaConsistency_witness :
    photostimBrainRegionMake ["ALM", "Striatum"] [5]
      = .error ("Multiple different brain areas for one photostim protocol is unsupported")
  ∧ photostimBrainRegionMake ["PT", "PT"] [5] = .ok ("PT", "right")
  ∧ (("PT", "right") : String × String).1 = "PT" := by
  refine ⟨(photostimAreaConsistency ["ALM", "Striatum"] [5]).1 (by decide), ?hok, ?_⟩
  case hok => rfl
  · exact (photostimAreaConsistency ["PT", "PT"] [5]).2 "PT" (by decide) (by decide)
      ("PT", "right") (by rfl)

/- ===== Alignment-event fallback: unit_psth.py lines 245-247 and 352-354 ===== -/

/-- Model of the Python substring test `pat in hay`. -/
def pyInStr (hay pat : String) : Bool :=
  let h := hay.toList
  let p := pat.toList
  (List.range (h.length + 1)).any (fun i => ((h.drop i).take p.length) == p)

/-- Embedding of the alignment-type fallback shared by
`plot_unit_psth_choice_outcome` and `plot_unit_psth_latent_variable_quantile`:
if the restriction of the session trial events to
`trial_event_type = "zaberready"` is empty, every requested alignment name
containing `trial_start` gets the suffix `_bitcode`; otherwise the list is
used unmodified.  `sessionEventTypes` is the list of trial-event types of the
unit session and models the `ephys.TrialEvent & unit_key` restriction. -/
def resolveAlignTypes (sessionEventTypes : List String) (align_types : List String) :
    List String :=
  if (sessionEventTypes.filter (fun e => e == ("zaberready"))).isEmpty then
    align_types.map (fun a => if pyInStr a ("trial_start") then a ++ "_bitcode" else a)
  else
    align_types

/-- C3: Alignment-event fallback: a session with zero "zaberready" trial
events has every "trial_start"-containing alignment name rewritten with the
"_bitcode" suffix and every other name left unchanged (one uniform rewrite of
the whole list); a session with at least one such event uses the list
unmodified; the length is preserved either way. -/
theorem zaberFallbackRewrite (events align : List String) :
    (events.count ("zaberready") = 0 →
        resolveAlignTypes events align
          = align.map (fun a => if pyInStr a ("trial_start") then a ++ "_bitcode" else a))
  ∧ (events.count ("zaberready") ≠ 0 → resolveAlignTypes events align = align)
  ∧ (resolveAlignTypes events align).length = align.length := by
  have hiff : ((events.filter (fun e => e == ("zaberready"))).isEmpty = true)
      ↔ (events.count ("zaberready") = 0) := by
    rw [List.isEmpty_iff, List.filter_eq_nil_iff, List.count_eq_zero]
    constructor
    · intro h hmem
      exact absurd (beq_iff_eq.mpr rfl) (h _ hmem)
    · intro h e he hbeq
      exact h ((beq_iff_eq.mp hbeq) ▸ he)
  refine ⟨?_, ?_, ?_⟩
  · intro h0
    simp only [resolveAlignTypes, if_pos (hiff.mpr h0)]
  · intro hne
    have hem : ¬ ((events.filter (fun e => e == ("zaberready"))).isEmpty = true) :=
      fun h => hne (hiff.mp h)
    simp only [resolveAlignTypes, if_neg hem]
  · unfold resolveAlignTypes
    split
    · exact List.length_map align _
    · rfl

/-- Witness for C3: applying the fallback theorem to a session without and a
session with a "zaberready" event, on a concrete alignment list. -/
theorem zaberFallbackRewrite_witness :
    resolveAlignTypes ["go"] ["trial_start", "go_cue", "next_trial_start"]
      = ["trial_start_bitcode", "go_cue", "next_trial_start_bitcode"]
  ∧ resolveAlignTypes ["zaberready", "go"] ["trial_start", "go_cue", "next_trial_start"]
      = ["trial_start", "go_cue", "next_trial_start"] := by
  constructor
  · exact ((zaberFallbackRewrite ["go"] ["trial_start", "go_cue", "next_trial_start"]).1
      (by decide)).trans (by decide)
  · exact (zaberFallbackRewrite ["zaberready", "go"]
      ["trial_start", "go_cue", "next_trial_start"]).2.1 (by decide)

/- ===== Trial-offset condition resolution: unit_psth.py lines 398-407 ===== -/

/-- Row of the per-trial latent-variable dataframe after the `qcut` column has
been added: the behavioral trial number and the assigned quantile rank (none
models a NaN rank). -/
structure TrialRow where
  trial : Int
  quantile_rank : Option Nat
deriving DecidableEq

/-- Embedding of `df[df.quantile_rank == rank]` followed by taking the
`trial` column: the trial numbers of one quantile group, before any offset. -/
def groupTrials (df : List TrialRow) (rank : Nat) : List Int :=
  (df.filter (fun r => r.quantile_rank == some rank)).map (fun r => r.trial)

/-- Embedding of `trial_num.trial += offset` followed by
`(experiment.BehaviorTrial & unit_key & trial_num).proj()`: each trial number
of the group is shifted by the align-type trial offset and then intersected
with the trials available for the unit (`avail`), keeping table order. -/
def resolveGroupTrials (df : List TrialRow) (rank : Nat) (offset : Int)
    (avail : List Int) : List Int :=
  avail.filter (fun t => decide (t ∈ (groupTrials df rank).map (fun s => s + offset)))

/-- C7: Trial-offset rule: a trial is selected at offset `o` exactly when it
is an available trial equal to a group member shifted by `o`; the shifted
address `s + o` is selected exactly when the identity `s` is in the group and
the shifted address is available (same identities as offset 0, re-addressed);
shifted indices outside the available range are dropped, never wrapped or
clamped; offset 0 is plain intersection with the available range. -/
theorem latentOffsetShift (df : List TrialRow) (rank : Nat) (offset : Int)
    (avail : List Int) :
    (∀ t : Int, t ∈ resolveGroupTrials df rank offset avail ↔
        (t ∈ avail ∧ ∃ s ∈ groupTrials df rank, t = s + offset))
  ∧ (∀ s : Int, (s + offset) ∈ resolveGroupTrials df rank offset avail ↔
        (s ∈ groupTrials df rank ∧ (s + offset) ∈ avail))
  ∧ (∀ t : Int, t ∈ resolveGroupTrials df rank 0 avail ↔
        (t ∈ avail ∧ t ∈ groupTrials df rank)) := by
  have hmem : ∀ (o : Int) (t : Int), t ∈ resolveGroupTrials df rank o avail ↔
      (t ∈ avail ∧ ∃ s ∈ groupTrials df rank, t = s + o) := by
    intro o t
    simp only [resolveGroupTrials, List.mem_filter, decide_eq_true_eq, List.mem_map]
    constructor
    · rintro ⟨ha, s, hs, hst⟩
      exact ⟨ha, s, hs, hst.symm⟩
    · rintro ⟨ha, s, hs, hst⟩
      exact ⟨ha, s, hs, hst.symm⟩
  refine ⟨hmem offset, ?_, ?_⟩
  · intro s
    rw [hmem offset (s + offset)]
    constructor
    · rintro ⟨ha, u, hu, hsu⟩
      have : u = s := by omega
      exact ⟨this ▸ hu, ha⟩
    · rintro ⟨hs, ha⟩
      exact ⟨ha, s, hs, rfl⟩
  · intro t
    rw [hmem 0 t]
    constructor
    · rintro ⟨ha, s, hs, hst⟩
      have : t = s := by omega
      exact ⟨ha, this ▸ hs⟩
    · rintro ⟨ha, hs⟩
      exact ⟨ha, t, hs, by omega⟩

/- ===== Signal segmenter: Breathing.make, experiment.py lines 431-475 ===== -/

/-- Python slice bound resolution for `data[s:e]`: a negative bound counts
from the end of the sequence, then the bound is clamped to `[0, len]`. -/
def sliceBound (len : Nat) (b : Int) : Nat :=
  let shifted := if b < 0 then b + len else b
  (max 0 (min shifted len)).toNat

/-- Model of the Python slice `data[s:e]` on a one-dimensional sequence. -/
def pySlice (data : List α) (s e : Int) : List α :=
  let lo := sliceBound data.length s
  let hi := sliceBound data.length e
  (data.drop lo).take (hi - lo)

/-- Embedding of the per-trial segmentation loop of `Breathing.make`
(experiment.py lines 468-473): for each index into `trial_starts_indices`,
`end_idx` is the next start while the current start is below the last start,
and the literal `-1` otherwise; the trial segment is the flattened slice
`breathing_data[:, start_idx:end_idx]` of the single requested channel. -/
def segmentTrials (data : List α) (starts : List Int) : List (List α) :=
  (List.range starts.length).map (fun idx =>
    let start_idx := starts.getD idx 0
    let end_idx : Int :=
      if start_idx < (starts.getLast?.getD 0) then starts.getD (idx + 1) 0 else -1
    pySlice data start_idx end_idx)

/-- C1: the claimed boundary policy fails on the code: for the raw channel
[10, 20, 30, 40] with trial starts [0, 2], segment 0 is [start 0, start 1) as
claimed, but the final segment is the slice with end index -1, which excludes
the last sample of the stream, so the final segment is [30] instead of
[30, 40] and the concatenation of the segments does not reconstruct the
buffer from start 0 onward. -/
theorem breathingSegmentationDropsLastSample :
    segmentTrials ([10, 20, 30, 40] : List Int) [0, 2] = [[10, 20], [30]]
  ∧ (segmentTrials ([10, 20, 30, 40] : List Int) [0, 2]).flatten ≠ [10, 20, 30, 40]
  ∧ (segmentTrials ([10, 20, 30, 40] : List Int) [0, 2]).getLastD [] ≠ [30, 40] := by
  refine ⟨rfl, ?_, ?_⟩ <;> decide

/-- Metadata of the raw acquisition stream, as returned by
`readSGLX.readMeta`; only the declared sensor-type flag `typeThis` drives a
decision in `Breathing.make`. -/
structure SGLXMeta where
  typeThis : String

/-- Branch policy of the gain-correction step, extracted from the condition
`meta[typeThis] == imec` at experiment.py line 460.  The raw channel data is
passed as an argument to record that the decision never reads it. -/
def gainBranchIsProbe (meta : SGLXMeta) (_breathing_data : List ℚ) : Bool :=
  meta.typeThis == "imec"

/-- Embedding of the gain-correction step of `Breathing.make` (experiment.py
lines 460-465).  `GainCorrectIM` and `GainCorrectNI` live in
`pipeline/ingest/readSGLX.py`, which is not part of the sources under
verification; they are modelled as abstract per-sample corrections `gIM` and
`gNI` (per the spec: the probe-specific and the generic analog-input gain
table).  The scale factors 1e6 (to microvolts) and 1e3 (to millivolts) are
the literals of the source. -/
def breathingGainCorrect (gIM gNI : ℚ → ℚ) (meta : SGLXMeta) (d : List ℚ) : List ℚ :=
  if meta.typeThis == "imec" then d.map (fun x => 1000000 * gIM x)
  else d.map (fun x => 1000 * gNI x)

/-- C5: Gain-correction branch: the gain-corrected channel is the probe
correction scaled by 1e6 exactly when the declared sensor type equals
"imec", and the generic analog-input correction scaled by 1e3 otherwise;
the branch policy is a function of the declared metadata flag alone and
yields the same decision for any two raw buffers. -/
theorem gainBranchByMetadata (gIM gNI : ℚ → ℚ) (meta : SGLXMeta) (d : List ℚ) :
    breathingGainCorrect gIM gNI meta d
      = (if gainBranchIsProbe meta d then d.map (fun x => 1000000 * gIM x)
         else d.map (fun x => 1000 * gNI x))
  ∧ (gainBranchIsProbe meta d = true ↔ meta.typeThis = "imec")
  ∧ (∀ d₁ d₂ : List ℚ, gainBranchIsProbe meta d₁ = gainBranchIsProbe meta d₂) := by
  refine ⟨rfl, ?_, fun d₁ d₂ => rfl⟩
  simp [gainBranchIsProbe]

/-- Gain correction followed by per-trial segmentation: the data-processing
portion of `Breathing.make` after the raw channel and the trial-start sample
indices have been obtained. -/
def breathingSegments (gIM gNI : ℚ → ℚ) (meta : SGLXMeta) (rawData : List ℚ)
    (starts : List Int) : List (List ℚ) :=
  segmentTrials (breathingGainCorrect gIM gNI meta rawData) starts

/-- Minimal model of Python runtime values, enough to give the final
statement of `Breathing.make` its Python meaning. -/
inductive PyVal where
  | pyInt : Int → PyVal
  | pyRat : ℚ → PyVal
  | pyList : List PyVal → PyVal
  | boundMethod : String → PyVal

/-- Model of Python subscription `obj[i]`: a list subscripted by an integer
indexes it (negative indices count from the end, out-of-range raises
IndexError); subscripting by a non-integer, or subscripting a non-sequence
value such as a bound method, raises TypeError. -/
def pySubscript : PyVal → PyVal → Except String PyVal
  | .pyList xs, .pyInt i =>
      let j := if i < 0 then i + xs.length else i
      if h : 0 ≤ j ∧ j.toNat < xs.length then .ok (xs.get ⟨j.toNat, h.2⟩)
      else .error ("IndexError: list index out of range")
  | .pyList _, _ => .error ("TypeError: list indices must be integers or slices")
  | .pyInt _, _ => .error ("TypeError: int object is not subscriptable")
  | .pyRat _, _ => .error ("TypeError: float object is not subscriptable")
  | .boundMethod _, _ => .error ("TypeError: method object is not subscriptable")

/-- Embedding of the tail of `Breathing.make`: after the segmentation loop,
line 475 evaluates `self.insert[all_trials_data]` -- a subscription of the
bound method `self.insert` -- so an exception propagates out of `make` and
only on a successful subscription would the rows be inserted into the table.
The result is the new table contents or the raised error. -/
def breathingMakeRun (table : List (List ℚ)) (gIM gNI : ℚ → ℚ) (meta : SGLXMeta)
    (rawData : List ℚ) (starts : List Int) : Except String (List (List ℚ)) :=
  let all_trials_data := breathingSegments gIM gNI meta rawData starts
  match pySubscript (.boundMethod "insert")
      (.pyList (all_trials_data.map (fun t => .pyList (t.map .pyRat)))) with
  | .error e => .error e
  | .ok _ => .ok (table ++ all_trials_data)

/-- Contents of the `Breathing` table after a `make` call: an aborted call
changes nothing (the insert never ran). -/
def breathingTableAfter (table : List (List ℚ)) (gIM gNI : ℚ → ℚ) (meta : SGLXMeta)
    (rawData : List ℚ) (starts : List Int) : List (List ℚ) :=
  match breathingMakeRun table gIM gNI meta rawData starts with
  | .ok t => t
  | .error _ => table

/-- C9: on every input that reaches the final step, `Breathing.make` raises a
TypeError because line 475 subscripts the `insert` method instead of calling
it, and the Breathing table is left unchanged on every run. -/
theorem breathingInsertTypeError (table : List (List ℚ)) (gIM gNI : ℚ → ℚ)
    (meta : SGLXMeta) (rawData : List ℚ) (starts : List Int) :
    breathingMakeRun table gIM gNI meta rawData starts
      = .error ("TypeError: method object is not subscriptable")
  ∧ breathingTableAfter table gIM gNI meta rawData starts = table := by
  constructor
  · rfl
  · rfl

/-- Key identifying a session, the argument of `Breathing.make`. -/
structure SessionKey where
  subject_id : Nat
  session : Nat

/-- Embedding of experiment.py line 448: the acquisition file path used by
`Breathing.make` is a hard-coded constant that ignores the session key. -/
def breathingBinPath (_key : SessionKey) : String :=
  "F:\\map\\test_data_full\\ephys\\DL004\\catgt_20210308_g0\\20210308_g0_t0.nidq.bin"

/-- Read-only view of the acquisition files on disk: metadata and raw channel
contents per path.  `readSGLX.readMeta` and `readSGLX.makeMemMapRaw` (not
part of the sources under verification) are modelled as lookups in it. -/
structure FileSys where
  meta : String → SGLXMeta
  raw : String → List ℚ

/-- Full data path of `Breathing.make` for a session key: metadata and raw
channel are read from the file at `breathingBinPath key`, then gain-corrected
and segmented at the bitcode-derived trial-start sample indices. -/
def breathingSegmentsOfKey (gIM gNI : ℚ → ℚ) (fs : FileSys) (key : SessionKey)
    (trialStartIndices : List Int) : List (List ℚ) :=
  breathingSegments gIM gNI (fs.meta (breathingBinPath key))
    (fs.raw (breathingBinPath key)) trialStartIndices

/-- C10: the raw buffer read by `Breathing.make` comes from one constant file
path independent of the session key: any two runs with different (subject,
session) keys map and read the same file, and with the same trial-start
indices they produce identical segmented output -- the output varies with the
key only through the bitcode-derived trial-start indices. -/
theorem breathingPathKeyIndependence (gIM gNI : ℚ → ℚ) (fs : FileSys)
    (k₁ k₂ : SessionKey) (starts : List Int) :
    breathingBinPath k₁ = breathingBinPath k₂
  ∧ breathingSegmentsOfKey gIM gNI fs k₁ starts
      = breathingSegmentsOfKey gIM gNI fs k₂ starts := by
  exact ⟨rfl, rfl⟩

/- ===== Quantile partitioner: unit_psth.py lines 356-364 ===== -/

/-- Insertion of a value into a sorted list, used to model the sort performed
by the quantile computation. -/
def insertSorted (x : ℚ) : List ℚ → List ℚ
  | [] => [x]
  | y :: ys => if x ≤ y then x :: y :: ys else y :: insertSorted x ys

/-- Sorting of a rational series (ascending). -/
def sortQ (xs : List ℚ) : List ℚ := xs.foldr insertSorted []

/-- Removal of adjacent duplicates of a sorted list. -/
def dedupAdj : List ℚ → List ℚ
  | [] => []
  | [x] => [x]
  | x :: y :: r => if x == y then dedupAdj (y :: r) else x :: dedupAdj (y :: r)

/-- Model of `numpy.unique`: sort, then drop duplicates. -/
def npUnique (xs : List ℚ) : List ℚ := dedupAdj (sortQ xs)

/-- Model of the linear-interpolation quantile of a sorted nonempty series at
fraction `f` (the default interpolation of `numpy`/`pandas`):
`pos = f*(n-1)`, the value is `s[i] + (pos-i)*(s[i+1]-s[i])` with
`i = floor pos`. -/
def seriesQuantile (sorted : List ℚ) (f : ℚ) : ℚ :=
  let pos : ℚ := f * ((sorted.length : ℚ) - 1)
  let i : Nat := (⌊pos⌋).toNat
  let lo := sorted.getD i 0
  let hi := sorted.getD (i + 1) lo
  lo + (pos - (i : ℚ)) * (hi - lo)

/-- Bin edges of `pandas.qcut(x, q)`: the quantiles of `x` at the fractions
`linspace(0, 1, q+1)`. -/
def qcutEdges (x : List ℚ) (q : Nat) : List ℚ :=
  (List.range (q + 1)).map (fun i => seriesQuantile (sortQ x) ((i : ℚ) / (q : ℚ)))

/-- Edge deduplication of `pandas._bins_to_cuts` under `duplicates="drop"`:
duplicate edges are replaced by the unique edges unless exactly two edges
were requested. -/
def qcutBins (x : List ℚ) (q : Nat) : List ℚ :=
  let edges := qcutEdges x q
  let unique_bins := npUnique edges
  if unique_bins.length < edges.length ∧ edges.length ≠ 2 then unique_bins else edges

/-- Label assignment of `pandas._bins_to_cuts` with `labels=False`,
`right=True`, `include_lowest=True`: `ids` is `searchsorted(bins, v, left)`
(the number of edges strictly below `v`), forced to 1 on the lowest edge;
values falling outside the bins get the NaN label (`none`), the rest get
`ids - 1`. -/
def qcutCode (bins : List ℚ) (v : ℚ) : Option Nat :=
  let ids := (bins.filter (fun b => decide (b < v))).length
  let ids2 := if v == bins.headD 0 then 1 else ids
  if ids2 = bins.length ∨ ids2 = 0 then none else some (ids2 - 1)

/-- Model of `pandas.qcut(x, q, labels=False, duplicates="drop")` on a series
without NaN entries, following the implementation of `pandas.core.reshape.tile`
(an external library the source calls at unit_psth.py line 363). -/
def pdQcut (x : List ℚ) (q : Nat) : List (Option Nat) :=
  x.map (qcutCode (qcutBins x q))

/-- Embedding of unit_psth.py lines 360-364: if any entry of the per-trial
latent-variable series is NaN, print and return (`none`); otherwise add the
`quantile_rank` column with `pd.qcut(..., n_quantile, labels=False,
duplicates="drop")` and recompute `n_quantile` as the number of distinct
rank values (pandas `unique`, which keeps NaN as one value). -/
def latentQuantileStep (series : List (Option ℚ)) (k : Nat) :
    Option (List (Option Nat) × Nat) :=
  if series.any (fun v => v.isNone) then none
  else
    let ranks := pdQcut (series.map (fun v => v.getD 0)) k
    some (ranks, ranks.eraseDups.length)

lemma getD_replicate_of_lt (c d : ℚ) (n j : Nat) (h : j < n) :
    (List.replicate n c).getD j d = c := by
  rw [List.getD_eq_getElem?_getD]
  simp [List.getElem?_replicate, h]

lemma insertSorted_replicate (c : ℚ) (m : Nat) :
    insertSorted c (List.replicate m c) = List.replicate (m + 1) c := by
  cases m with
  | zero => rfl
  | succ m => simp [List.replicate_succ, insertSorted]

lemma sortQ_replicate (c : ℚ) (n : Nat) :
    sortQ (List.replicate n c) = List.replicate n c := by
  induction n with
  | zero => rfl
  | succ n ih =>
    rw [List.replicate_succ]
    show insertSorted c (sortQ (List.replicate n c)) = _
    rw [ih, insertSorted_replicate]
    rfl

lemma seriesQuantile_replicate (c : ℚ) (n : Nat) (hn : n ≠ 0) (f : ℚ)
    (_h0 : 0 ≤ f) (h1 : f ≤ 1) :
    seriesQuantile (List.replicate n c) f = c := by
  have hn1 : (1:ℚ) ≤ (n:ℚ) := by exact_mod_cast Nat.one_le_iff_ne_zero.mpr hn
  have hposle : f * ((n:ℚ) - 1) ≤ (n:ℚ) - 1 := by nlinarith
  have hfl : ⌊f * ((n:ℚ) - 1)⌋ ≤ (n:ℤ) - 1 := by
    have h2 : ((n:ℚ) - 1) = (((n:ℤ) - 1 : ℤ) : ℚ) := by push_cast; ring
    calc ⌊f * ((n:ℚ) - 1)⌋
        ≤ ⌊(n:ℚ) - 1⌋ := Int.floor_le_floor hposle
      _ = (n:ℤ) - 1 := by rw [h2, Int.floor_intCast]
  have hi : (⌊f * ((n:ℚ) - 1)⌋).toNat < n := by
    have := Int.toNat_le_toNat hfl
    omega
  simp only [seriesQuantile, List.length_replicate]
  rw [getD_replicate_of_lt _ _ _ _ hi]
  by_cases hi1 : (⌊f * ((n:ℚ) - 1)⌋).toNat + 1 < n
  · rw [getD_replicate_of_lt _ _ _ _ hi1]; ring
  · have hD : (List.replicate n c).getD ((⌊f * ((n:ℚ) - 1)⌋).toNat + 1) c = c := by
      rw [List.getD_eq_getElem?_getD]
      simp [List.getElem?_replicate, hi1]
    rw [hD]; ring

lemma qcutEdges_replicate (c : ℚ) (n : Nat) (hn : n ≠ 0) :
    qcutEdges (List.replicate n c) 5 = List.replicate 6 c := by
  unfold qcutEdges
  rw [sortQ_replicate]
  have h : List.range 6 = [0, 1, 2, 3, 4, 5] := rfl
  rw [h]
  simp only [List.map]
  rw [seriesQuantile_replicate c n hn _ (by norm_num) (by norm_num),
    seriesQuantile_replicate c n hn _ (by norm_num) (by norm_num),
    seriesQuantile_replicate c n hn _ (by norm_num) (by norm_num),
    seriesQuantile_replicate c n hn _ (by norm_num) (by norm_num),
    seriesQuantile_replicate c n hn _ (by norm_num) (by norm_num),
    seriesQuantile_replicate c n hn _ (by norm_num) (by norm_num)]
  rfl

lemma npUnique_replicate6 (c : ℚ) : npUnique (List.replicate 6 c) = [c] := by
  unfold npUnique
  rw [sortQ_replicate]
  show dedupAdj [c, c, c, c, c, c] = [c]
  simp [dedupAdj]

lemma qcutBins_replicate (c : ℚ) (n : Nat) (hn : n ≠ 0) :
    qcutBins (List.replicate n c) 5 = [c] := by
  simp only [qcutBins]
  rw [qcutEdges_replicate c n hn, npUnique_replicate6]
  norm_num

lemma qcutCode_single (c : ℚ) : qcutCode [c] c = none := by
  simp [qcutCode]

lemma qcut_replicate (c : ℚ) (n : Nat) (hn : n ≠ 0) :
    pdQcut (List.replicate n c) 5 = List.replicate n none := by
  unfold pdQcut
  rw [qcutBins_replicate c n hn, List.map_replicate, qcutCode_single]

/-- C6: the claimed degenerate-case refusal is absent: on a series of 100
identical finite values with 5 requested quantiles the partitioner does not
refuse with "insufficient variation" -- the only guard (the NaN check of
line 360) passes, `pd.qcut(..., duplicates="drop")` collapses all bin edges
and labels every trial NaN, and the analysis silently continues with a
single degenerate pseudo-group (`n_quantile = 1`) that matches no trial. -/
theorem constantSeriesNoRefusal (c : ℚ) :
    latentQuantileStep (List.replicate 100 (some c)) 5
      = some (List.replicate 100 none, 1) := by
  have hguard : (List.replicate 100 (some c)).any (fun v => v.isNone) = false := by
    simp
  have hmap : (List.replicate 100 (some c)).map (fun v => v.getD 0)
      = List.replicate 100 c := by
    simp [List.map_replicate]
  simp only [latentQuantileStep, hguard, Bool.false_eq_true, if_false, hmap,
    qcut_replicate c 100 (by norm_num)]
  norm_num
  decide

/-- C4 counterexample: a series with one NaN among finite values is not
partitioned at all -- the resolver returns early -- although the very same
finite entries are partitioned when the NaN is absent; so NaN entries are
not "excluded while the rest is partitioned". -/
theorem nanSeriesAbortsCounterexample :
    latentQuantileStep [none, some 1, some 2, some 3] 2 = none
  ∧ latentQuantileStep [some 1, some 2, some 3] 2 ≠ none := by
  exact ⟨rfl, by simp [latentQuantileStep]⟩

/-- C4 (amended): if any entry of the series is non-finite, the analysis is
aborted entirely before any partition is formed; a partition, with one rank
per entry, is produced exactly when every entry is finite. -/
theorem nanSeriesAborts (series : List (Option ℚ)) (k : Nat) :
    (series.any (fun v => v.isNone) = true → latentQuantileStep series k = none)
  ∧ (series.any (fun v => v.isNone) = false →
        latentQuantileStep series k
          = some (pdQcut (series.map (fun v => v.getD 0)) k,
              (pdQcut (series.map (fun v => v.getD 0)) k).eraseDups.length)
        ∧ (pdQcut (series.map (fun v => v.getD 0)) k).length = series.length) := by
  constructor
  · intro h
    simp [latentQuantileStep, h]
  · intro h
    refine ⟨by simp [latentQuantileStep, h], ?_⟩
    simp [pdQcut]

/-- Witness for C4 (amended): the abort branch and the all-finite branch of
the theorem at concrete series. -/
theorem nanSeriesAborts_witness :
    latentQuantileStep [none, some 5] 2 = none
  ∧ latentQuantileStep [some 1, some 2] 2
      = some (pdQcut ([some (1:ℚ), some 2].map (fun v => v.getD 0)) 2,
          (pdQcut ([some (1:ℚ), some 2].map (fun v => v.getD 0)) 2).eraseDups.length) := by
  exact ⟨(nanSeriesAborts [none, some 5] 2).1 (by decide),
    ((nanSeriesAborts [some 1, some 2] 2).2 (by decide)).1⟩

/-- Witness for C5: the gain-branch theorem applied at a concrete probe
metadata flag, a concrete non-probe flag and concrete buffers. -/
theorem gainBranchByMetadata_witness :
    (gainBranchIsProbe ⟨"imec"⟩ [1] = true ↔ (("imec") : String) = "imec")
  ∧ (gainBranchIsProbe ⟨"nidq"⟩ [1] = gainBranchIsProbe ⟨"nidq"⟩ [2, 3]) :=
  ⟨(gainBranchByMetadata id id ⟨"imec"⟩ [1]).2.1,
   (gainBranchByMetadata id id ⟨"nidq"⟩ [1]).2.2 [1] [2, 3]⟩

/-- Witness for C7: the offset membership characterization of the theorem at
a concrete group, offset and availability range. -/
theorem latentOffsetShift_witness :
    (3 : Int) ∈ resolveGroupTrials [⟨2, some 0⟩] 0 1 [3] ↔
      ((3 : Int) ∈ [(3 : Int)] ∧ ∃ s ∈ groupTrials [⟨2, some 0⟩] 0, (3 : Int) = s + 1) :=
  (latentOffsetShift [⟨2, some 0⟩] 0 1 [3]).1 3

/-- Witness for C9: the theorem applied at a concrete table, gain functions,
metadata, raw buffer and trial starts. -/
theorem breathingInsertTypeError_witness :
    breathingMakeRun [] id id ⟨"imec"⟩ [1, 2] [0]
      = .error ("TypeError: method object is not subscriptable")
  ∧ breathingTableAfter [] id id ⟨"imec"⟩ [1, 2] [0] = [] :=
  breathingInsertTypeError [] id id ⟨"imec"⟩ [1, 2] [0]

/-- Witness for C10: the path-independence theorem applied at two distinct
concrete session keys. -/
theorem breathingPathKeyIndependence_witness :
    breathingBinPath ⟨473361, 47⟩ = breathingBinPath ⟨1, 1⟩
  ∧ breathingSegmentsOfKey id id ⟨fun _ => ⟨"imec"⟩, fun _ => [1, 2]⟩ ⟨473361, 47⟩ [0]
      = breathingSegmentsOfKey id id ⟨fun _ => ⟨"imec"⟩, fun _ => [1, 2]⟩ ⟨1, 1⟩ [0] :=
  breathingPathKeyIndependence id id ⟨fun _ => ⟨"imec"⟩, fun _ => [1, 2]⟩ ⟨473361, 47⟩ ⟨1, 1⟩ [0]

/-- Witness for C6: the no-refusal theorem at the concrete series of 100
identical values 5 with 5 requested quantiles. -/
theorem constantSeriesNoRefusal_witness :
    latentQuantileStep (List.replicate 100 (some (5 : ℚ))) 5
      = some (List.replicate 100 none, 1) :=
  constantSeriesNoRefusal 5
